import Mathlib

set_option maxRecDepth 1000000

/-!
# Verification of `skills/python-clean-code/scripts/init_project.py`

Shallow embedding of the project-scaffolding script.  The filesystem is
modelled as an explicit state (`FS`): an association list of files
(path ↦ content, most recent entry shadowing older ones) together with a
list of existing directories.  Paths are lists of components relative to
an abstract filesystem root; `pathlib`'s `/` operator is modelled by
`joinPath`, which splits its string argument on `'/'` and drops empty and
`"."` segments, as `pathlib` does for relative segments (absolute-path
overriding and the textual root prefix of absolute paths are not
modelled; `str(path)` is rendered by `strOfPath` as the components
joined with `"/"`).  Fallible filesystem operations return
`Except String FS`; the error strings name the corresponding Python
exception.  Printing to stdout is not modelled.
-/

/-- A filesystem path, as a list of path components. -/
abbrev FPath := List String

/-- Split a character list on `'/'` (the semantics of Python's
`str.split("/")`: yields the, possibly empty, chunks between slashes). -/
def splitOnSlash : List Char → List (List Char)
  | [] => [[]]
  | c :: cs =>
    if c = '/' then [] :: splitOnSlash cs
    else
      match splitOnSlash cs with
      | [] => [[c]]
      | h :: t => (c :: h) :: t

/-- The path components contributed by one string argument of `pathlib`'s
`/` operator: split on `'/'`, dropping empty chunks and `"."` chunks. -/
def strComponents (s : String) : List String :=
  ((splitOnSlash s.data).filter (fun c => !c.isEmpty && c != ['.'])).map (fun l => String.mk l)

/-- `p / s` of `pathlib` for a relative string segment `s`. -/
def joinPath (p : FPath) (s : String) : FPath := p ++ strComponents s

/-- `str(path)`: the components joined with `"/"`. -/
def strOfPath : FPath → String
  | [] => ""
  | [c] => c
  | c :: c2 :: cs => c ++ "/" ++ strOfPath (c2 :: cs)

/-- Python's substring test `pat in s`. -/
def containsStr (s pat : String) : Bool := decide (pat.data <:+: s.data)

/-- Helper for `replaceList`: while `skip` is positive, the characters
of an already-replaced occurrence are consumed without being emitted;
at `skip = 0` the scan looks for the next occurrence of the pattern. -/
def replaceAux (pat rep : List Char) : Nat → List Char → List Char
  | _, [] => []
  | n + 1, _ :: cs => replaceAux pat rep n cs
  | 0, c :: cs =>
    if pat.isPrefixOf (c :: cs) then
      rep ++ replaceAux pat rep (pat.length - 1) cs
    else
      c :: replaceAux pat rep 0 cs

/-- Python's `str.replace(pat, rep)` (left-to-right, non-overlapping
replacement of each occurrence), for a non-empty pattern, on character
lists. -/
def replaceList (pat rep s : List Char) : List Char := replaceAux pat rep 0 s

/-- `name.replace("-", "_")` (line 119 of `init_project.py`). -/
def packageNameOf (name : String) : String := String.mk (replaceList ['-'] ['_'] name.data)

/-- `PYPROJECT_TEMPLATE` up to the `{name}` placeholder. -/
def PYPROJECT_TEMPLATE_pre : String := "[project]\nname = \""

/-- `PYPROJECT_TEMPLATE` after the `{name}` placeholder. -/
def PYPROJECT_TEMPLATE_post : String :=
  "\"\nversion = \"0.1.0\"\ndescription = \"\"\nrequires-python = \">=3.11\"\ndependencies = []\n\n[project.optional-dependencies]\ndev = [\"pytest\", \"ruff\", \"mypy\"]\n\n[tool.ruff]\nline-length = 100\ntarget-version = \"py311\"\n\n[tool.ruff.lint]\nselect = [\"E\", \"F\", \"I\", \"UP\", \"B\", \"SIM\"]\n\n[tool.mypy]\nstrict = true\npython_version = \"3.11\"\n\n[tool.pytest.ini_options]\ntestpaths = [\"tests\"]\npythonpath = [\"src\"]\n"

/-- `PYPROJECT_TEMPLATE.format(name=name)`: the template contains exactly
one occurrence of the `{name}` placeholder, so formatting is literal
splicing of `name` between the fixed prefix and suffix. -/
def pyprojectRendered (name : String) : String :=
  PYPROJECT_TEMPLATE_pre ++ name ++ PYPROJECT_TEMPLATE_post

/-- `MAKEFILE_TEMPLATE` (no placeholders). -/
def MAKEFILE_TEMPLATE : String :=
  ".PHONY: install test lint format typecheck all\n\ninstall:\n\tuv sync\n\ntest:\n\tuv run pytest\n\nlint:\n\tuv run ruff check src tests\n\nformat:\n\tuv run ruff format src tests\n\ntypecheck:\n\tuv run mypy src\n\nall: format lint typecheck test\n"

/-- `GITIGNORE_TEMPLATE` (no placeholders). -/
def GITIGNORE_TEMPLATE : String :=
  "__pycache__/\n*.py[cod]\n*$py.class\n.venv/\nvenv/\n.env\n*.egg-info/\ndist/\nbuild/\n.mypy_cache/\n.pytest_cache/\n.ruff_cache/\n"

/-- `BASE_PY_TEMPLATE` (no placeholders). -/
def BASE_PY_TEMPLATE : String :=
  "\"\"\"Abstract base classes for dependency injection.\"\"\"\n\nfrom abc import ABC, abstractmethod\nfrom typing import TypeVar\n\nT = TypeVar(\"T\")\n\n\nclass Repository(ABC):\n    \"\"\"Base repository interface.\"\"\"\n\n    @abstractmethod\n    def save(self, entity: T) -> None:\n        \"\"\"Persist an entity.\"\"\"\n        ...\n\n    @abstractmethod\n    def find_by_id(self, entity_id: str) -> T | None:\n        \"\"\"Retrieve an entity by ID.\"\"\"\n        ...\n"

/-- `CONFIG_PY_TEMPLATE` (no placeholders). -/
def CONFIG_PY_TEMPLATE : String :=
  "\"\"\"Application configuration.\"\"\"\n\nfrom dataclasses import dataclass, field\nfrom pathlib import Path\n\n\n@dataclass\nclass Config:\n    \"\"\"Main application configuration.\"\"\"\n\n    debug: bool = False\n    log_level: str = \"INFO\"\n    data_dir: Path = field(default_factory=lambda: Path(\"data\"))\n"

/-- `INIT_TEMPLATE` up to the `{description}` placeholder. -/
def INIT_TEMPLATE_pre : String := "\"\"\""

/-- `INIT_TEMPLATE` after the `{description}` placeholder. -/
def INIT_TEMPLATE_post : String := "\"\"\"\n\n__version__ = \"0.1.0\"\n"

/-- `INIT_TEMPLATE.format(description=description)`. -/
def initRendered (description : String) : String :=
  INIT_TEMPLATE_pre ++ description ++ INIT_TEMPLATE_post

/-- The literal `'"""Package."""\n'` written as a package marker
(line 137 of `init_project.py`). -/
def PACKAGE_MARKER : String := "\"\"\"Package.\"\"\"\n"

/-- The filesystem state: an association list of files (newest entry
first, shadowing older entries for the same path) and the set of
existing directories. -/
structure FS where
  files : List (FPath × String)
  dirs : List FPath
deriving DecidableEq

/-- The empty filesystem. -/
def FS.empty : FS := ⟨[], []⟩

/-- First-match lookup in the file association list. -/
def lookupFile : List (FPath × String) → FPath → Option String
  | [], _ => none
  | e :: l, p => if e.1 = p then some e.2 else lookupFile l p

/-- Content of the file at `p`, if any. -/
def FS.getFile (fs : FS) (p : FPath) : Option String := lookupFile fs.files p

/-- Create or overwrite the file at `p` with content `c`. -/
def FS.setFile (fs : FS) (p : FPath) (c : String) : FS := ⟨(p, c) :: fs.files, fs.dirs⟩

/-- Does a regular file exist at `p`? -/
def FS.fileExists (fs : FS) (p : FPath) : Bool := (fs.getFile p).isSome

/-- Does a directory exist at `p`?  The empty path (the abstract root)
always exists as a directory. -/
def FS.dirExists (fs : FS) (p : FPath) : Bool := p.isEmpty || decide (p ∈ fs.dirs)

/-- `Path.exists()`: true for both files and directories. -/
def FS.pathExists (fs : FS) (p : FPath) : Bool := fs.fileExists p || fs.dirExists p

/-- Create a single directory, tolerating an existing directory
(`exist_ok=True`) but failing on an existing file (`FileExistsError`). -/
def FS.mkdir1 (fs : FS) (p : FPath) : Except String FS :=
  if fs.fileExists p then .error "FileExistsError"
  else if fs.dirExists p then .ok fs
  else .ok ⟨fs.files, p :: fs.dirs⟩

/-- The non-empty prefixes of a path, shortest first: the chain of
ancestors that `mkdir(parents=True)` ensures. -/
def nePrefixes (p : FPath) : List FPath := (List.range p.length).map (fun i => p.take (i + 1))

/-- Ensure each directory of a list in turn. -/
def FS.mkdirList (fs : FS) : List FPath → Except String FS
  | [] => .ok fs
  | q :: l =>
    match fs.mkdir1 q with
    | .error e => .error e
    | .ok fs1 => fs1.mkdirList l

/-- `path.mkdir(parents=True, exist_ok=True)`: ensure every ancestor of
`p` and `p` itself, failing if any of them exists as a regular file. -/
def FS.mkdirParents (fs : FS) (p : FPath) : Except String FS := fs.mkdirList (nePrefixes p)

/-- `path.write_text(c)`: fails if `p` is a directory
(`IsADirectoryError`) or its parent is not an existing directory
(`FileNotFoundError`/`NotADirectoryError`); otherwise creates or
overwrites the file. -/
def FS.writeText (fs : FS) (p : FPath) (c : String) : Except String FS :=
  if fs.dirExists p then .error "IsADirectoryError"
  else if fs.dirExists p.dropLast then .ok (fs.setFile p c)
  else .error "FileNotFoundError"

/-- Sequencing of fallible filesystem actions (exception propagation). -/
def eseq (x : Except String FS) (f : FS → Except String FS) : Except String FS :=
  match x with
  | .error e => .error e
  | .ok a => f a

/-- One iteration of the directory loop (lines 133-137 of
`init_project.py`): `directory.mkdir(parents=True, exist_ok=True)`, then
write the package marker to `directory / "__init__.py"` when `"src"`
occurs in `str(directory)` and nothing exists at that path. -/
def stepDir (fs : FS) (directory : FPath) : Except String FS :=
  eseq (fs.mkdirParents directory) fun fs1 =>
    if containsStr (strOfPath directory) "src"
        && !(fs1.pathExists (joinPath directory "__init__.py")) then
      fs1.writeText (joinPath directory "__init__.py") PACKAGE_MARKER
    else .ok fs1

/-- The directory loop, over the whole directory list. -/
def loopDirs (fs : FS) : List FPath → Except String FS
  | [] => .ok fs
  | d :: l => eseq (stepDir fs d) fun fs1 => loopDirs fs1 l

/-- The `directories` list (lines 122-131 of `init_project.py`). -/
def directoriesOf (project_dir src_dir : FPath) : List FPath :=
  [joinPath project_dir "configs",
   joinPath project_dir "scripts",
   joinPath (joinPath project_dir "tests") "unit",
   joinPath (joinPath project_dir "tests") "integration",
   joinPath src_dir "entities",
   joinPath src_dir "services",
   joinPath src_dir "workflows",
   joinPath src_dir "infrastructure"]

/-- Perform a list of unconditional `write_text` calls in order. -/
def writeAll (fs : FS) : List (FPath × String) → Except String FS
  | [] => .ok fs
  | e :: l => eseq (fs.writeText e.1 e.2) fun fs1 => writeAll fs1 l

/-- The nine unconditional writes of `create_project`
(lines 139-149 of `init_project.py`), in source order. -/
def targetWrites (name : String) (project_dir src_dir : FPath) : List (FPath × String) :=
  [(joinPath project_dir "pyproject.toml", pyprojectRendered name),
   (joinPath project_dir "Makefile", MAKEFILE_TEMPLATE),
   (joinPath project_dir ".gitignore", GITIGNORE_TEMPLATE),
   (joinPath src_dir "__init__.py", initRendered (name ++ " package")),
   (joinPath src_dir "base.py", BASE_PY_TEMPLATE),
   (joinPath src_dir "config.py", CONFIG_PY_TEMPLATE),
   (joinPath (joinPath project_dir "tests") "__init__.py", ""),
   (joinPath (joinPath (joinPath project_dir "tests") "unit") "__init__.py", ""),
   (joinPath (joinPath (joinPath project_dir "tests") "integration") "__init__.py", "")]

/-- `project_dir = output_dir / name` (line 118 of `init_project.py`). -/
def project_dir_of (output_dir : FPath) (name : String) : FPath := joinPath output_dir name

/-- `src_dir = project_dir / "src" / package_name` (line 120 of
`init_project.py`). -/
def src_dir_of (output_dir : FPath) (name : String) : FPath :=
  joinPath (joinPath (project_dir_of output_dir name) "src") (packageNameOf name)

/-- `create_project(name, output_dir)` (lines 116-149 of
`init_project.py`): derive the project and source directories, run the
directory loop, then perform the nine unconditional writes. -/
def create_project (name : String) (output_dir : FPath) (fs : FS) : Except String FS :=
  eseq (loopDirs fs (directoriesOf (project_dir_of output_dir name) (src_dir_of output_dir name)))
    fun fs1 =>
      writeAll fs1 (targetWrites name (project_dir_of output_dir name) (src_dir_of output_dir name))

/-- Result of a concrete run on an empty filesystem (used to instantiate
universally quantified theorems at a concrete input). -/
def cpW : FS := ((create_project "widget" ["o"] FS.empty).toOption).getD FS.empty

/-- A filesystem holding a stale manifest file before the run. -/
def fsPre : FS := FS.empty.setFile ["o", "widget", "pyproject.toml"] "OLD"

/-- Result of a concrete run over `fsPre`. -/
def cpPre : FS := ((create_project "widget" ["o"] fsPre).toOption).getD FS.empty

/-- A filesystem holding a hand-edited sub-package marker before the run. -/
def fsC5 : FS :=
  FS.empty.setFile ["o", "widget", "src", "widget", "entities", "__init__.py"] "CUSTOM"

/-- Result of a concrete run over `fsC5`. -/
def cpC5 : FS := ((create_project "widget" ["o"] fsC5).toOption).getD FS.empty

/-- A filesystem in which only the output root `o` exists. -/
def fsRoot : FS := ⟨[], [["o"]]⟩

/-- Result of a first concrete run over `fsRoot`. -/
def cpR1 : FS := ((create_project "widget" ["o"] fsRoot).toOption).getD FS.empty

/-! ## Basic lemmas about the filesystem model -/

theorem eseq_ok {x : Except String FS} {f : FS → Except String FS} {b : FS} :
    eseq x f = .ok b ↔ ∃ a, x = .ok a ∧ f a = .ok b := by
  cases x <;> simp [eseq]

theorem getFile_setFile_self (fs : FS) (p : FPath) (c : String) :
    (fs.setFile p c).getFile p = some c := by
  simp [FS.setFile, FS.getFile, lookupFile]

theorem getFile_setFile_ne (fs : FS) {p q : FPath} (c : String) (h : q ≠ p) :
    (fs.setFile p c).getFile q = fs.getFile q := by
  simp [FS.setFile, FS.getFile, lookupFile, Ne.symm h]

theorem dirExists_setFile (fs : FS) (p q : FPath) (c : String) :
    (fs.setFile p c).dirExists q = fs.dirExists q := rfl

theorem fileExists_congr {fs1 fs2 : FS} (h : fs1.files = fs2.files) (q : FPath) :
    fs1.fileExists q = fs2.fileExists q := by
  simp [FS.fileExists, FS.getFile, h]

theorem fileExists_iff_getFile_some {fs : FS} {q : FPath} :
    fs.fileExists q = true ↔ ∃ c, fs.getFile q = some c := by
  simp [FS.fileExists, Option.isSome_iff_exists]

theorem writeText_ok_iff {fs fs' : FS} {p : FPath} {c : String} :
    fs.writeText p c = .ok fs' ↔
      fs.dirExists p = false ∧ fs.dirExists p.dropLast = true ∧ fs' = fs.setFile p c := by
  unfold FS.writeText
  cases hp : fs.dirExists p <;> cases hq : fs.dirExists p.dropLast <;> simp [hp, hq, eq_comm]

theorem mkdir1_ok_files {fs fs' : FS} {p : FPath} (h : fs.mkdir1 p = .ok fs') :
    fs'.files = fs.files := by
  unfold FS.mkdir1 at h
  by_cases hf : fs.fileExists p = true
  · rw [if_pos hf] at h; cases h
  · rw [if_neg hf] at h
    by_cases hd : fs.dirExists p = true
    · rw [if_pos hd] at h; injection h with h2; subst h2; rfl
    · rw [if_neg hd] at h; injection h with h2; subst h2; rfl

theorem mkdir1_ok_dirs {fs fs' : FS} {p : FPath} (h : fs.mkdir1 p = .ok fs') (q : FPath) :
    fs'.dirExists q = true ↔ (fs.dirExists q = true ∨ q = p) := by
  unfold FS.mkdir1 at h
  by_cases hf : fs.fileExists p = true
  · rw [if_pos hf] at h; cases h
  · rw [if_neg hf] at h
    by_cases hd : fs.dirExists p = true
    · rw [if_pos hd] at h; injection h with h2; subst h2
      constructor
      · exact Or.inl
      · rintro (h1 | rfl)
        · exact h1
        · exact hd
    · rw [if_neg hd] at h; injection h with h2; subst h2
      show (q.isEmpty || decide (q ∈ p :: fs.dirs)) = true ↔ _
      simp [FS.dirExists, List.mem_cons]
      tauto

theorem mkdir1_ok_file_false {fs fs' : FS} {p : FPath} (h : fs.mkdir1 p = .ok fs') :
    fs.fileExists p = false := by
  unfold FS.mkdir1 at h
  by_cases hf : fs.fileExists p = true
  · rw [if_pos hf] at h; cases h
  · simpa using hf

theorem mkdir1_ok_of {fs : FS} {p : FPath} (h : fs.fileExists p = false) :
    ∃ fs', fs.mkdir1 p = .ok fs' := by
  unfold FS.mkdir1
  rw [h]
  by_cases hd : fs.dirExists p = true
  · rw [if_pos hd]; simp
  · rw [if_neg hd]; simp

theorem mkdirList_ok_files : ∀ {l : List FPath} {fs fs' : FS},
    fs.mkdirList l = .ok fs' → fs'.files = fs.files := by
  intro l
  induction l with
  | nil =>
    intro fs fs' h
    unfold FS.mkdirList at h
    simp at h
    rw [h]
  | cons q l ih =>
    intro fs fs' h
    unfold FS.mkdirList at h
    cases hm : fs.mkdir1 q with
    | error e => rw [hm] at h; cases h
    | ok fs1 =>
      rw [hm] at h
      rw [ih h, mkdir1_ok_files hm]

theorem mkdirList_ok_dirs : ∀ {l : List FPath} {fs fs' : FS},
    fs.mkdirList l = .ok fs' → ∀ q, (fs'.dirExists q = true ↔ (fs.dirExists q = true ∨ q ∈ l)) := by
  intro l
  induction l with
  | nil =>
    intro fs fs' h q
    unfold FS.mkdirList at h
    simp at h
    rw [h]
    simp
  | cons p l ih =>
    intro fs fs' h q
    unfold FS.mkdirList at h
    cases hm : fs.mkdir1 p with
    | error e => rw [hm] at h; cases h
    | ok fs1 =>
      rw [hm] at h
      rw [ih h q, mkdir1_ok_dirs hm q]
      simp [List.mem_cons]
      tauto

theorem mkdirList_ok_conds : ∀ {l : List FPath} {fs fs' : FS},
    fs.mkdirList l = .ok fs' → ∀ q ∈ l, fs.fileExists q = false := by
  intro l
  induction l with
  | nil => intro fs fs' _ q hq; cases hq
  | cons p l ih =>
    intro fs fs' h q hq
    unfold FS.mkdirList at h
    cases hm : fs.mkdir1 p with
    | error e => rw [hm] at h; cases h
    | ok fs1 =>
      rw [hm] at h
      rcases List.mem_cons.1 hq with rfl | hq'
      · exact mkdir1_ok_file_false hm
      · rw [← fileExists_congr (mkdir1_ok_files hm) q]
        exact ih h q hq'

theorem mkdirList_ok_of : ∀ {l : List FPath} {fs : FS},
    (∀ q ∈ l, fs.fileExists q = false) → ∃ fs', fs.mkdirList l = .ok fs' := by
  intro l
  induction l with
  | nil => intro fs _; exact ⟨fs, rfl⟩
  | cons p l ih =>
    intro fs h
    obtain ⟨fs1, h1⟩ := mkdir1_ok_of (h p (List.mem_cons_self p l))
    have hf : ∀ q ∈ l, fs1.fileExists q = false := by
      intro q hq
      rw [fileExists_congr (mkdir1_ok_files h1) q]
      exact h q (List.mem_cons_of_mem p hq)
    obtain ⟨fs', h2⟩ := ih hf
    refine ⟨fs', ?_⟩
    unfold FS.mkdirList
    rw [h1]
    exact h2

/-! ## Prefix-list lemmas -/

theorem mem_nePrefixes {q p : FPath} : q ∈ nePrefixes p ↔ (q ≠ [] ∧ q <+: p) := by
  simp only [nePrefixes, List.mem_map, List.mem_range]
  constructor
  · rintro ⟨i, hi, rfl⟩
    constructor
    · apply List.ne_nil_of_length_pos
      rw [List.length_take]
      omega
    · exact ⟨p.drop (i + 1), List.take_append_drop _ _⟩
  · rintro ⟨hne, t, rfl⟩
    have hl : 0 < q.length := List.length_pos.2 hne
    refine ⟨q.length - 1, ?_, ?_⟩
    · rw [List.length_append]
      omega
    · have hq : q.length - 1 + 1 = q.length := by omega
      rw [hq, List.take_left]

theorem self_mem_nePrefixes {p : FPath} (h : p ≠ []) : p ∈ nePrefixes p :=
  mem_nePrefixes.2 ⟨h, List.prefix_rfl⟩

theorem append_single_not_mem_nePrefixes (p : FPath) (x : String) :
    (p ++ [x]) ∉ nePrefixes p := by
  rw [mem_nePrefixes]
  rintro ⟨-, h⟩
  have := h.length_le
  simp [List.length_append] at this

theorem not_mem_nePrefixes_of_not_pref {q p : FPath} (h : ¬(q <+: p)) : q ∉ nePrefixes p := by
  rw [mem_nePrefixes]
  rintro ⟨-, h2⟩
  exact h h2

/-! ## Evaluation of `joinPath` at the literal path segments of the script -/

theorem joinPath_configs (p : FPath) : joinPath p "configs" = p ++ ["configs"] := rfl

theorem joinPath_scripts (p : FPath) : joinPath p "scripts" = p ++ ["scripts"] := rfl

theorem joinPath_tests (p : FPath) : joinPath p "tests" = p ++ ["tests"] := rfl

theorem joinPath_unit (p : FPath) : joinPath p "unit" = p ++ ["unit"] := rfl

theorem joinPath_integration (p : FPath) : joinPath p "integration" = p ++ ["integration"] := rfl

theorem joinPath_src (p : FPath) : joinPath p "src" = p ++ ["src"] := rfl

theorem joinPath_entities (p : FPath) : joinPath p "entities" = p ++ ["entities"] := rfl

theorem joinPath_services (p : FPath) : joinPath p "services" = p ++ ["services"] := rfl

theorem joinPath_workflows (p : FPath) : joinPath p "workflows" = p ++ ["workflows"] := rfl

theorem joinPath_infrastructure (p : FPath) :
    joinPath p "infrastructure" = p ++ ["infrastructure"] := rfl

theorem joinPath_init (p : FPath) : joinPath p "__init__.py" = p ++ ["__init__.py"] := rfl

theorem joinPath_pyproject (p : FPath) :
    joinPath p "pyproject.toml" = p ++ ["pyproject.toml"] := rfl

theorem joinPath_makefile (p : FPath) : joinPath p "Makefile" = p ++ ["Makefile"] := rfl

theorem joinPath_gitignore (p : FPath) : joinPath p ".gitignore" = p ++ [".gitignore"] := rfl

theorem joinPath_basepy (p : FPath) : joinPath p "base.py" = p ++ ["base.py"] := rfl

theorem joinPath_configpy (p : FPath) : joinPath p "config.py" = p ++ ["config.py"] := rfl

/-! ## Behaviour of one iteration of the directory loop -/

theorem stepDir_ok_parts {fs fs' : FS} {d : FPath} (h : stepDir fs d = .ok fs') :
    ∃ fs1, fs.mkdirParents d = .ok fs1 ∧
      ((containsStr (strOfPath d) "src" && !(fs1.pathExists (d ++ ["__init__.py"]))) = true ∧
          fs' = fs1.setFile (d ++ ["__init__.py"]) PACKAGE_MARKER ∨
        (containsStr (strOfPath d) "src" && !(fs1.pathExists (d ++ ["__init__.py"]))) = false ∧
          fs' = fs1) := by
  unfold stepDir at h
  rw [eseq_ok] at h
  obtain ⟨fs1, h1, h2⟩ := h
  rw [joinPath_init] at h2
  refine ⟨fs1, h1, ?_⟩
  by_cases hc : (containsStr (strOfPath d) "src" && !(fs1.pathExists (d ++ ["__init__.py"]))) = true
  · rw [if_pos hc, writeText_ok_iff] at h2
    exact Or.inl ⟨hc, h2.2.2⟩
  · rw [if_neg hc] at h2
    injection h2 with h3
    exact Or.inr ⟨Bool.eq_false_iff.2 hc, h3.symm⟩

theorem stepDir_ok_of {fs : FS} {d : FPath}
    (h : ∀ q ∈ nePrefixes d, fs.fileExists q = false) :
    ∃ fs', stepDir fs d = .ok fs' := by
  obtain ⟨fs1, h1⟩ := mkdirList_ok_of h
  unfold stepDir FS.mkdirParents
  rw [h1]
  simp only [eseq]
  by_cases hc : (containsStr (strOfPath d) "src"
      && !(fs1.pathExists (joinPath d "__init__.py"))) = true
  · rw [if_pos hc]
    have hnp : fs1.pathExists (joinPath d "__init__.py") = false := by
      have h2 := ((Bool.and_eq_true _ _).mp hc).2
      simpa using h2
    have hnd : fs1.dirExists (joinPath d "__init__.py") = false := by
      unfold FS.pathExists at hnp
      exact (Bool.or_eq_false_iff.mp hnp).2
    have hpar : fs1.dirExists ((joinPath d "__init__.py").dropLast) = true := by
      rw [joinPath_init, List.dropLast_concat]
      by_cases hdnil : d = []
      · subst hdnil
        simp [FS.dirExists]
      · exact (mkdirList_ok_dirs h1 d).2 (Or.inr (self_mem_nePrefixes hdnil))
    refine ⟨fs1.setFile (joinPath d "__init__.py") PACKAGE_MARKER, ?_⟩
    rw [writeText_ok_iff]
    exact ⟨hnd, hpar, rfl⟩
  · rw [if_neg hc]
    exact ⟨fs1, rfl⟩

theorem stepDir_ok_dirs {fs fs' : FS} {d : FPath} (h : stepDir fs d = .ok fs') (q : FPath) :
    fs'.dirExists q = true ↔ (fs.dirExists q = true ∨ q ∈ nePrefixes d) := by
  obtain ⟨fs1, h1, hrest⟩ := stepDir_ok_parts h
  have hd := mkdirList_ok_dirs h1 q
  rcases hrest with ⟨-, rfl⟩ | ⟨-, rfl⟩
  · rw [dirExists_setFile]
    exact hd
  · exact hd

theorem stepDir_ok_getFile_ne {fs fs' : FS} {d q : FPath} (h : stepDir fs d = .ok fs')
    (hq : q ≠ d ++ ["__init__.py"]) : fs'.getFile q = fs.getFile q := by
  obtain ⟨fs1, h1, hrest⟩ := stepDir_ok_parts h
  have hget : fs1.getFile q = fs.getFile q := by
    simp [FS.getFile, mkdirList_ok_files h1]
  rcases hrest with ⟨-, rfl⟩ | ⟨-, rfl⟩
  · rw [getFile_setFile_ne _ _ hq]
    exact hget
  · exact hget

theorem stepDir_ok_getFile_some {fs fs' : FS} {d q : FPath} {c : String}
    (h : stepDir fs d = .ok fs') (hs : fs.getFile q = some c) : fs'.getFile q = some c := by
  by_cases hq : q = d ++ ["__init__.py"]
  · subst hq
    obtain ⟨fs1, h1, hrest⟩ := stepDir_ok_parts h
    have hget : fs1.getFile (d ++ ["__init__.py"]) = some c := by
      simp only [FS.getFile, mkdirList_ok_files h1]
      exact hs
    rcases hrest with ⟨hc, rfl⟩ | ⟨-, rfl⟩
    · exfalso
      have h2 := ((Bool.and_eq_true _ _).mp hc).2
      have h3 : fs1.pathExists (d ++ ["__init__.py"]) = false := by simpa using h2
      have h4 : fs1.fileExists (d ++ ["__init__.py"]) = true :=
        fileExists_iff_getFile_some.2 ⟨c, hget⟩
      unfold FS.pathExists at h3
      rw [h4] at h3
      simp at h3
    · exact hget
  · rw [stepDir_ok_getFile_ne h hq]
    exact hs

theorem stepDir_ok_conds {fs fs' : FS} {d : FPath} (h : stepDir fs d = .ok fs') :
    ∀ q ∈ nePrefixes d, fs.fileExists q = false := by
  obtain ⟨fs1, h1, -⟩ := stepDir_ok_parts h
  exact mkdirList_ok_conds h1

theorem stepDir_ok_marker {fs fs' : FS} {d : FPath} (h : stepDir fs d = .ok fs') :
    fs'.getFile (d ++ ["__init__.py"]) =
      if (containsStr (strOfPath d) "src" && !(fs.pathExists (d ++ ["__init__.py"]))) = true
      then some PACKAGE_MARKER
      else fs.getFile (d ++ ["__init__.py"]) := by
  obtain ⟨fs1, h1, hrest⟩ := stepDir_ok_parts h
  have hfiles := mkdirList_ok_files h1
  have hfe : fs1.fileExists (d ++ ["__init__.py"]) = fs.fileExists (d ++ ["__init__.py"]) :=
    fileExists_congr hfiles _
  have hde : fs1.dirExists (d ++ ["__init__.py"]) = fs.dirExists (d ++ ["__init__.py"]) := by
    have hiff := mkdirList_ok_dirs h1 (d ++ ["__init__.py"])
    have hnm := append_single_not_mem_nePrefixes d "__init__.py"
    cases hb : fs.dirExists (d ++ ["__init__.py"]) with
    | false =>
      cases hb1 : fs1.dirExists (d ++ ["__init__.py"]) with
      | false => rfl
      | true =>
        exfalso
        rcases hiff.1 hb1 with hx | hx
        · rw [hb] at hx; cases hx
        · exact hnm hx
    | true => exact hiff.2 (Or.inl hb)
  have hpe : fs1.pathExists (d ++ ["__init__.py"]) = fs.pathExists (d ++ ["__init__.py"]) := by
    unfold FS.pathExists
    rw [hfe, hde]
  rcases hrest with ⟨hc, rfl⟩ | ⟨hc, rfl⟩
  · rw [hpe] at hc
    rw [getFile_setFile_self, if_pos hc]
  · rw [hpe] at hc
    rw [if_neg (by simp [hc])]
    simp [FS.getFile, hfiles]

/-! ## Behaviour of the whole directory loop -/

theorem stepDir_ok_dirExists_eq {fs fs' : FS} {d q : FPath} (h : stepDir fs d = .ok fs')
    (hq : q ∉ nePrefixes d) : fs'.dirExists q = fs.dirExists q := by
  have hiff := stepDir_ok_dirs h q
  cases hb : fs.dirExists q with
  | false =>
    cases hb1 : fs'.dirExists q with
    | false => rfl
    | true =>
      exfalso
      rcases hiff.1 hb1 with hx | hx
      · rw [hb] at hx; cases hx
      · exact hq hx
  | true => exact hiff.2 (Or.inl hb)

theorem stepDir_ok_fileExists_eq {fs fs' : FS} {d q : FPath} (h : stepDir fs d = .ok fs')
    (hne : q ≠ d ++ ["__init__.py"]) : fs'.fileExists q = fs.fileExists q := by
  unfold FS.fileExists
  rw [stepDir_ok_getFile_ne h hne]

theorem stepDir_ok_pathExists_eq {fs fs' : FS} {d q : FPath} (h : stepDir fs d = .ok fs')
    (hne : q ≠ d ++ ["__init__.py"]) (hq : q ∉ nePrefixes d) :
    fs'.pathExists q = fs.pathExists q := by
  unfold FS.pathExists
  rw [stepDir_ok_dirExists_eq h hq, stepDir_ok_fileExists_eq h hne]

theorem loopDirs_ok_getFile_some : ∀ {l : List FPath} {fs fs' : FS} {q : FPath} {c : String},
    loopDirs fs l = .ok fs' → fs.getFile q = some c → fs'.getFile q = some c := by
  intro l
  induction l with
  | nil =>
    intro fs fs' q c h hs
    unfold loopDirs at h
    injection h with h2
    rw [← h2]
    exact hs
  | cons d0 l ih =>
    intro fs fs' q c h hs
    unfold loopDirs at h
    rw [eseq_ok] at h
    obtain ⟨fs1, hstep, hloop⟩ := h
    exact ih hloop (stepDir_ok_getFile_some hstep hs)

theorem loopDirs_ok_getFile_ne : ∀ {l : List FPath} {fs fs' : FS} {q : FPath},
    loopDirs fs l = .ok fs' → (∀ d ∈ l, q ≠ d ++ ["__init__.py"]) →
    fs'.getFile q = fs.getFile q := by
  intro l
  induction l with
  | nil =>
    intro fs fs' q h _
    unfold loopDirs at h
    injection h with h2
    rw [← h2]
  | cons d0 l ih =>
    intro fs fs' q h hq
    unfold loopDirs at h
    rw [eseq_ok] at h
    obtain ⟨fs1, hstep, hloop⟩ := h
    rw [ih hloop (fun d hd => hq d (List.mem_cons_of_mem d0 hd))]
    exact stepDir_ok_getFile_ne hstep (hq d0 (List.mem_cons_self d0 l))

theorem loopDirs_ok_dirExists_mono : ∀ {l : List FPath} {fs fs' : FS} {q : FPath},
    loopDirs fs l = .ok fs' → fs.dirExists q = true → fs'.dirExists q = true := by
  intro l
  induction l with
  | nil =>
    intro fs fs' q h hd
    unfold loopDirs at h
    injection h with h2
    rw [← h2]
    exact hd
  | cons d0 l ih =>
    intro fs fs' q h hd
    unfold loopDirs at h
    rw [eseq_ok] at h
    obtain ⟨fs1, hstep, hloop⟩ := h
    exact ih hloop ((stepDir_ok_dirs hstep q).2 (Or.inl hd))

theorem loopDirs_ok_dirExists_mem : ∀ {l : List FPath} {fs fs' : FS} {d q : FPath},
    loopDirs fs l = .ok fs' → d ∈ l → q ∈ nePrefixes d → fs'.dirExists q = true := by
  intro l
  induction l with
  | nil => intro fs fs' d q _ hd; cases hd
  | cons d0 l ih =>
    intro fs fs' d q h hd hq
    unfold loopDirs at h
    rw [eseq_ok] at h
    obtain ⟨fs1, hstep, hloop⟩ := h
    rcases List.mem_cons.1 hd with rfl | hd'
    · exact loopDirs_ok_dirExists_mono hloop ((stepDir_ok_dirs hstep q).2 (Or.inr hq))
    · exact ih hloop hd' hq

theorem loopDirs_ok_dirExists_eq : ∀ {l : List FPath} {fs fs' : FS} {q : FPath},
    loopDirs fs l = .ok fs' → (∀ d ∈ l, q ∉ nePrefixes d) →
    fs'.dirExists q = fs.dirExists q := by
  intro l
  induction l with
  | nil =>
    intro fs fs' q h _
    unfold loopDirs at h
    injection h with h2
    rw [← h2]
  | cons d0 l ih =>
    intro fs fs' q h hq
    unfold loopDirs at h
    rw [eseq_ok] at h
    obtain ⟨fs1, hstep, hloop⟩ := h
    rw [ih hloop (fun d hd => hq d (List.mem_cons_of_mem d0 hd))]
    exact stepDir_ok_dirExists_eq hstep (hq d0 (List.mem_cons_self d0 l))

theorem loopDirs_ok_conds : ∀ {l : List FPath} {fs fs' : FS},
    loopDirs fs l = .ok fs' → ∀ d ∈ l, ∀ q ∈ nePrefixes d, fs.fileExists q = false := by
  intro l
  induction l with
  | nil => intro fs fs' _ d hd; cases hd
  | cons d0 l ih =>
    intro fs fs' h d hd q hq
    unfold loopDirs at h
    rw [eseq_ok] at h
    obtain ⟨fs1, hstep, hloop⟩ := h
    rcases List.mem_cons.1 hd with rfl | hd'
    · exact stepDir_ok_conds hstep q hq
    · cases hb : fs.fileExists q with
      | false => rfl
      | true =>
        exfalso
        obtain ⟨c, hc⟩ := fileExists_iff_getFile_some.1 hb
        have h1 : fs1.getFile q = some c := stepDir_ok_getFile_some hstep hc
        have h2 : fs1.fileExists q = true := fileExists_iff_getFile_some.2 ⟨c, h1⟩
        rw [ih hloop d hd' q hq] at h2
        cases h2

theorem loopDirs_ok_of : ∀ {l : List FPath} {fs : FS},
    (∀ d ∈ l, ∀ q ∈ nePrefixes d, fs.fileExists q = false) →
    (∀ d ∈ l, ∀ d' ∈ l, (d ++ ["__init__.py"]) ∉ nePrefixes d') →
    ∃ fs', loopDirs fs l = .ok fs' := by
  intro l
  induction l with
  | nil => intro fs _ _; exact ⟨fs, rfl⟩
  | cons d0 l ih =>
    intro fs h1 h2
    obtain ⟨fs1, hstep⟩ := stepDir_ok_of (h1 d0 (List.mem_cons_self d0 l))
    have h1' : ∀ d ∈ l, ∀ q ∈ nePrefixes d, fs1.fileExists q = false := by
      intro d hd q hq
      have hne : q ≠ d0 ++ ["__init__.py"] := by
        intro he
        exact h2 d0 (List.mem_cons_self d0 l) d (List.mem_cons_of_mem d0 hd) (he ▸ hq)
      rw [stepDir_ok_fileExists_eq hstep hne]
      exact h1 d (List.mem_cons_of_mem d0 hd) q hq
    have h2' : ∀ d ∈ l, ∀ d' ∈ l, (d ++ ["__init__.py"]) ∉ nePrefixes d' := fun d hd d' hd' =>
      h2 d (List.mem_cons_of_mem d0 hd) d' (List.mem_cons_of_mem d0 hd')
    obtain ⟨fs', hloop⟩ := ih h1' h2'
    refine ⟨fs', ?_⟩
    unfold loopDirs
    rw [eseq_ok]
    exact ⟨fs1, hstep, hloop⟩

theorem loopDirs_ok_marker : ∀ {l : List FPath} {fs fs' : FS} {d : FPath},
    loopDirs fs l = .ok fs' → d ∈ l → l.Pairwise (· ≠ ·) →
    (∀ d' ∈ l, (d ++ ["__init__.py"]) ∉ nePrefixes d') →
    fs'.getFile (d ++ ["__init__.py"]) =
      if (containsStr (strOfPath d) "src" && !(fs.pathExists (d ++ ["__init__.py"]))) = true
      then some PACKAGE_MARKER
      else fs.getFile (d ++ ["__init__.py"]) := by
  intro l
  induction l with
  | nil => intro fs fs' d _ hd; cases hd
  | cons d0 l ih =>
    intro fs fs' d h hd hp hnp
    unfold loopDirs at h
    rw [eseq_ok] at h
    obtain ⟨fs1, hstep, hloop⟩ := h
    have hp' := List.pairwise_cons.1 hp
    rcases List.mem_cons.1 hd with rfl | hd'
    · have hne : ∀ d' ∈ l, d ++ ["__init__.py"] ≠ d' ++ ["__init__.py"] := by
        intro d' hd' he
        exact hp'.1 d' hd' (List.append_cancel_right he)
      rw [loopDirs_ok_getFile_ne hloop hne]
      exact stepDir_ok_marker hstep
    · have hne : d ++ ["__init__.py"] ≠ d0 ++ ["__init__.py"] := by
        intro he
        exact hp'.1 d hd' (List.append_cancel_right he).symm
      have hpe := stepDir_ok_pathExists_eq hstep hne (hnp d0 (List.mem_cons_self d0 l))
      have hge := stepDir_ok_getFile_ne hstep hne
      rw [ih hloop hd' hp'.2 (fun d' hx => hnp d' (List.mem_cons_of_mem d0 hx)), hpe, hge]

/-! ## Behaviour of the block of unconditional writes -/

theorem writeAll_ok_getFile_ne : ∀ {l : List (FPath × String)} {fs fs' : FS} {q : FPath},
    writeAll fs l = .ok fs' → (∀ e ∈ l, q ≠ e.1) → fs'.getFile q = fs.getFile q := by
  intro l
  induction l with
  | nil =>
    intro fs fs' q h _
    unfold writeAll at h
    injection h with h2
    rw [← h2]
  | cons e0 l ih =>
    intro fs fs' q h hq
    unfold writeAll at h
    rw [eseq_ok] at h
    obtain ⟨fs1, hw, hrest⟩ := h
    obtain ⟨-, -, rfl⟩ := writeText_ok_iff.1 hw
    rw [ih hrest (fun e he => hq e (List.mem_cons_of_mem e0 he))]
    exact getFile_setFile_ne _ _ (hq e0 (List.mem_cons_self e0 l))

theorem writeAll_ok_dirExists : ∀ {l : List (FPath × String)} {fs fs' : FS} {q : FPath},
    writeAll fs l = .ok fs' → fs'.dirExists q = fs.dirExists q := by
  intro l
  induction l with
  | nil =>
    intro fs fs' q h
    unfold writeAll at h
    injection h with h2
    rw [← h2]
  | cons e0 l ih =>
    intro fs fs' q h
    unfold writeAll at h
    rw [eseq_ok] at h
    obtain ⟨fs1, hw, hrest⟩ := h
    obtain ⟨-, -, rfl⟩ := writeText_ok_iff.1 hw
    rw [ih hrest]
    rfl

theorem writeAll_ok_mem : ∀ {l : List (FPath × String)} {fs fs' : FS},
    writeAll fs l = .ok fs' → l.Pairwise (fun a b => a.1 ≠ b.1) →
    ∀ e ∈ l, fs'.getFile e.1 = some e.2 := by
  intro l
  induction l with
  | nil => intro fs fs' _ _ e he; cases he
  | cons e0 l ih =>
    intro fs fs' h hp e he
    unfold writeAll at h
    rw [eseq_ok] at h
    obtain ⟨fs1, hw, hrest⟩ := h
    obtain ⟨-, -, rfl⟩ := writeText_ok_iff.1 hw
    have hp' := List.pairwise_cons.1 hp
    rcases List.mem_cons.1 he with rfl | he'
    · rw [writeAll_ok_getFile_ne hrest (fun e' he' => hp'.1 e' he')]
      exact getFile_setFile_self _ _ _
    · exact ih hrest hp'.2 e he'

theorem writeAll_ok_of : ∀ {l : List (FPath × String)} {fs : FS},
    (∀ e ∈ l, fs.dirExists e.1 = false ∧ fs.dirExists e.1.dropLast = true) →
    ∃ fs', writeAll fs l = .ok fs' := by
  intro l
  induction l with
  | nil => intro fs _; exact ⟨fs, rfl⟩
  | cons e0 l ih =>
    intro fs h
    have h0 := h e0 (List.mem_cons_self e0 l)
    have h' : ∀ e ∈ l, (fs.setFile e0.1 e0.2).dirExists e.1 = false ∧
        (fs.setFile e0.1 e0.2).dirExists e.1.dropLast = true := by
      intro e he
      rw [dirExists_setFile, dirExists_setFile]
      exact h e (List.mem_cons_of_mem e0 he)
    obtain ⟨fs', hrest⟩ := ih h'
    refine ⟨fs', ?_⟩
    unfold writeAll
    rw [eseq_ok]
    refine ⟨fs.setFile e0.1 e0.2, ?_, hrest⟩
    rw [writeText_ok_iff]
    exact ⟨h0.1, h0.2, rfl⟩

theorem writeAll_ok_conds : ∀ {l : List (FPath × String)} {fs fs' : FS},
    writeAll fs l = .ok fs' →
    ∀ e ∈ l, fs.dirExists e.1 = false ∧ fs.dirExists e.1.dropLast = true := by
  intro l
  induction l with
  | nil => intro fs fs' _ e he; cases he
  | cons e0 l ih =>
    intro fs fs' h e he
    unfold writeAll at h
    rw [eseq_ok] at h
    obtain ⟨fs1, hw, hrest⟩ := h
    obtain ⟨hw1, hw2, rfl⟩ := writeText_ok_iff.1 hw
    rcases List.mem_cons.1 he with rfl | he'
    · exact ⟨hw1, hw2⟩
    · have := ih hrest e he'
      rw [dirExists_setFile, dirExists_setFile] at this
      exact this

/-! ## Shape of the directory list and write list -/

theorem src_dir_shape (out : FPath) (name : String) :
    src_dir_of out name =
      project_dir_of out name ++ "src" :: strComponents (packageNameOf name) := by
  rw [src_dir_of, joinPath_src, joinPath]
  simp

theorem directoriesOf_eq (pd P : FPath) :
    directoriesOf pd (pd ++ "src" :: P) =
      [pd ++ ["configs"], pd ++ ["scripts"], pd ++ ["tests", "unit"],
       pd ++ ["tests", "integration"], pd ++ "src" :: (P ++ ["entities"]),
       pd ++ "src" :: (P ++ ["services"]), pd ++ "src" :: (P ++ ["workflows"]),
       pd ++ "src" :: (P ++ ["infrastructure"])] := by
  rw [directoriesOf, joinPath_configs, joinPath_scripts, joinPath_tests, joinPath_unit,
    joinPath_integration, joinPath_entities, joinPath_services, joinPath_workflows,
    joinPath_infrastructure]
  simp

theorem targetWrites_eq (pd P : FPath) (name : String) :
    targetWrites name pd (pd ++ "src" :: P) =
      [(pd ++ ["pyproject.toml"], pyprojectRendered name),
       (pd ++ ["Makefile"], MAKEFILE_TEMPLATE),
       (pd ++ [".gitignore"], GITIGNORE_TEMPLATE),
       (pd ++ "src" :: (P ++ ["__init__.py"]), initRendered (name ++ " package")),
       (pd ++ "src" :: (P ++ ["base.py"]), BASE_PY_TEMPLATE),
       (pd ++ "src" :: (P ++ ["config.py"]), CONFIG_PY_TEMPLATE),
       (pd ++ ["tests", "__init__.py"], ""),
       (pd ++ ["tests", "unit", "__init__.py"], ""),
       (pd ++ ["tests", "integration", "__init__.py"], "")] := by
  rw [targetWrites, joinPath_pyproject, joinPath_makefile, joinPath_gitignore, joinPath_init,
    joinPath_init, joinPath_init, joinPath_init, joinPath_basepy, joinPath_configpy,
    joinPath_tests, joinPath_unit, joinPath_integration]
  simp

/-! ## Disjointness facts about the generated paths -/

theorem directories_pairwise (pd P : FPath) :
    (directoriesOf pd (pd ++ "src" :: P)).Pairwise (· ≠ ·) := by
  rw [directoriesOf_eq]
  simp [List.pairwise_cons, List.cons_prefix_cons]

theorem marker_not_pref (pd P : FPath) :
    ∀ d ∈ directoriesOf pd (pd ++ "src" :: P), ∀ d' ∈ directoriesOf pd (pd ++ "src" :: P),
      (d ++ ["__init__.py"]) ∉ nePrefixes d' := by
  intro d hd d' hd'
  apply not_mem_nePrefixes_of_not_pref
  rw [directoriesOf_eq] at hd hd'
  simp only [List.mem_cons, List.not_mem_nil, or_false] at hd hd'
  rcases hd with rfl | rfl | rfl | rfl | rfl | rfl | rfl | rfl <;>
    rcases hd' with rfl | rfl | rfl | rfl | rfl | rfl | rfl | rfl <;>
      simp [List.cons_prefix_cons, List.prefix_append_right_inj]

theorem targets_not_pref (pd P : FPath) (name : String) :
    ∀ e ∈ targetWrites name pd (pd ++ "src" :: P),
      ∀ d ∈ directoriesOf pd (pd ++ "src" :: P), e.1 ∉ nePrefixes d := by
  intro e he d hd
  apply not_mem_nePrefixes_of_not_pref
  rw [targetWrites_eq] at he
  rw [directoriesOf_eq] at hd
  simp only [List.mem_cons, List.not_mem_nil, or_false] at he hd
  rcases he with rfl | rfl | rfl | rfl | rfl | rfl | rfl | rfl | rfl <;>
    rcases hd with rfl | rfl | rfl | rfl | rfl | rfl | rfl | rfl <;>
      simp [List.cons_prefix_cons, List.prefix_append_right_inj]

theorem targets_pairwise (pd P : FPath) (name : String) :
    (targetWrites name pd (pd ++ "src" :: P)).Pairwise (fun a b => a.1 ≠ b.1) := by
  rw [targetWrites_eq]
  simp [List.pairwise_cons, List.cons_prefix_cons]

theorem target_parent_ok (pd P : FPath) (name : String) :
    ∀ e ∈ targetWrites name pd (pd ++ "src" :: P),
      e.1.dropLast = pd ∨
        ∃ d ∈ directoriesOf pd (pd ++ "src" :: P), e.1.dropLast ∈ nePrefixes d := by
  intro e he
  rw [targetWrites_eq] at he
  simp only [List.mem_cons, List.not_mem_nil, or_false] at he
  rcases he with rfl | rfl | rfl | rfl | rfl | rfl | rfl | rfl | rfl
  · exact Or.inl (List.dropLast_concat)
  · exact Or.inl (List.dropLast_concat)
  · exact Or.inl (List.dropLast_concat)
  · refine Or.inr ⟨pd ++ "src" :: (P ++ ["entities"]), ?_, ?_⟩
    · rw [directoriesOf_eq]; simp
    · have hd : (pd ++ "src" :: (P ++ ["__init__.py"])).dropLast = pd ++ "src" :: P := by
        rw [show pd ++ "src" :: (P ++ ["__init__.py"]) = (pd ++ "src" :: P) ++ ["__init__.py"] by
          simp]
        exact List.dropLast_concat
      rw [hd, mem_nePrefixes]
      constructor
      · simp
      · exact ⟨["entities"], by simp⟩
  · refine Or.inr ⟨pd ++ "src" :: (P ++ ["entities"]), ?_, ?_⟩
    · rw [directoriesOf_eq]; simp
    · have hd : (pd ++ "src" :: (P ++ ["base.py"])).dropLast = pd ++ "src" :: P := by
        rw [show pd ++ "src" :: (P ++ ["base.py"]) = (pd ++ "src" :: P) ++ ["base.py"] by simp]
        exact List.dropLast_concat
      rw [hd, mem_nePrefixes]
      constructor
      · simp
      · exact ⟨["entities"], by simp⟩
  · refine Or.inr ⟨pd ++ "src" :: (P ++ ["entities"]), ?_, ?_⟩
    · rw [directoriesOf_eq]; simp
    · have hd : (pd ++ "src" :: (P ++ ["config.py"])).dropLast = pd ++ "src" :: P := by
        rw [show pd ++ "src" :: (P ++ ["config.py"]) = (pd ++ "src" :: P) ++ ["config.py"] by
          simp]
        exact List.dropLast_concat
      rw [hd, mem_nePrefixes]
      constructor
      · simp
      · exact ⟨["entities"], by simp⟩
  · refine Or.inr ⟨pd ++ ["tests", "unit"], ?_, ?_⟩
    · rw [directoriesOf_eq]; simp
    · have hd : (pd ++ ["tests", "__init__.py"]).dropLast = pd ++ ["tests"] := by
        rw [show pd ++ ["tests", "__init__.py"] = (pd ++ ["tests"]) ++ ["__init__.py"] by simp]
        exact List.dropLast_concat
      rw [hd, mem_nePrefixes]
      constructor
      · simp
      · exact ⟨["unit"], by simp⟩
  · refine Or.inr ⟨pd ++ ["tests", "unit"], ?_, ?_⟩
    · rw [directoriesOf_eq]; simp
    · have hd : (pd ++ ["tests", "unit", "__init__.py"]).dropLast = pd ++ ["tests", "unit"] := by
        rw [show pd ++ ["tests", "unit", "__init__.py"] =
          (pd ++ ["tests", "unit"]) ++ ["__init__.py"] by simp]
        exact List.dropLast_concat
      rw [hd, mem_nePrefixes]
      constructor
      · simp
      · exact ⟨[], by simp⟩
  · refine Or.inr ⟨pd ++ ["tests", "integration"], ?_, ?_⟩
    · rw [directoriesOf_eq]; simp
    · have hd : (pd ++ ["tests", "integration", "__init__.py"]).dropLast =
        pd ++ ["tests", "integration"] := by
        rw [show pd ++ ["tests", "integration", "__init__.py"] =
          (pd ++ ["tests", "integration"]) ++ ["__init__.py"] by simp]
        exact List.dropLast_concat
      rw [hd, mem_nePrefixes]
      constructor
      · simp
      · exact ⟨[], by simp⟩

/-! ## Master lemmas for `create_project` -/

theorem create_project_ok_parts {name : String} {out : FPath} {fs fs' : FS}
    (h : create_project name out fs = .ok fs') :
    ∃ fsL,
      loopDirs fs (directoriesOf (project_dir_of out name) (src_dir_of out name)) = .ok fsL ∧
      writeAll fsL (targetWrites name (project_dir_of out name) (src_dir_of out name)) =
        .ok fs' := by
  unfold create_project at h
  rw [eseq_ok] at h
  exact h

theorem create_project_ok_of {name : String} {out : FPath} {fs : FS}
    (h1 : ∀ d ∈ directoriesOf (project_dir_of out name) (src_dir_of out name),
      ∀ q ∈ nePrefixes d, fs.fileExists q = false)
    (h2 : ∀ e ∈ targetWrites name (project_dir_of out name) (src_dir_of out name),
      fs.dirExists e.1 = false) :
    ∃ fs', create_project name out fs = .ok fs' ∧
      ∀ e ∈ targetWrites name (project_dir_of out name) (src_dir_of out name),
        fs'.getFile e.1 = some e.2 := by
  have hsd := src_dir_shape out name
  rw [hsd] at h1 h2
  obtain ⟨fsL, hloop⟩ :=
    loopDirs_ok_of h1 (marker_not_pref (project_dir_of out name) (strComponents (packageNameOf name)))
  have hw : ∀ e ∈ targetWrites name (project_dir_of out name)
      (project_dir_of out name ++ "src" :: strComponents (packageNameOf name)),
      fsL.dirExists e.1 = false ∧ fsL.dirExists e.1.dropLast = true := by
    intro e he
    constructor
    · rw [loopDirs_ok_dirExists_eq hloop
        (targets_not_pref (project_dir_of out name) (strComponents (packageNameOf name)) name e he)]
      exact h2 e he
    · rcases target_parent_ok (project_dir_of out name) (strComponents (packageNameOf name))
        name e he with hp | ⟨d, hd, hq⟩
      · rw [hp]
        by_cases hnil : project_dir_of out name = []
        · rw [hnil]
          simp [FS.dirExists]
        · have hmem : project_dir_of out name ∈
              nePrefixes (project_dir_of out name ++ ["configs"]) :=
            mem_nePrefixes.2 ⟨hnil, ⟨["configs"], rfl⟩⟩
          have hdir : project_dir_of out name ++ ["configs"] ∈
              directoriesOf (project_dir_of out name)
                (project_dir_of out name ++ "src" :: strComponents (packageNameOf name)) := by
            rw [directoriesOf_eq]
            simp
          exact loopDirs_ok_dirExists_mem hloop hdir hmem
      · exact loopDirs_ok_dirExists_mem hloop hd hq
  obtain ⟨fs', hwr⟩ := writeAll_ok_of hw
  refine ⟨fs', ?_, ?_⟩
  · unfold create_project
    rw [eseq_ok, hsd]
    exact ⟨fsL, hloop, hwr⟩
  · intro e he
    rw [hsd] at he
    exact writeAll_ok_mem hwr
      (targets_pairwise (project_dir_of out name) (strComponents (packageNameOf name)) name) e he

theorem create_project_ok_targets {name : String} {out : FPath} {fs fs' : FS}
    (h : create_project name out fs = .ok fs') :
    ∀ e ∈ targetWrites name (project_dir_of out name) (src_dir_of out name),
      fs'.getFile e.1 = some e.2 := by
  obtain ⟨fsL, hloop, hwr⟩ := create_project_ok_parts h
  have hsd := src_dir_shape out name
  rw [hsd] at hwr
  intro e he
  rw [hsd] at he
  exact writeAll_ok_mem hwr
    (targets_pairwise (project_dir_of out name) (strComponents (packageNameOf name)) name) e he

/-! ## String-level lemmas -/

theorem replaceAux_dash : ∀ l : List Char,
    replaceAux ['-'] ['_'] 0 l = l.map (fun c => if c = '-' then '_' else c) := by
  intro l
  induction l with
  | nil => rfl
  | cons c cs ih =>
    by_cases h : c = '-'
    · subst h
      simp [replaceAux, List.isPrefixOf, ih]
    · simp [replaceAux, List.isPrefixOf, ih, h, Ne.symm h]

theorem pyprojectRendered_inj {n1 n2 : String} (h : pyprojectRendered n1 = pyprojectRendered n2) :
    n1 = n2 := by
  have hd := congrArg String.data h
  simp only [pyprojectRendered, String.data_append, List.append_assoc] at hd
  exact String.ext (List.append_cancel_right (List.append_cancel_left hd))

theorem containsStr_iff {s pat : String} : containsStr s pat = true ↔ pat.data <:+: s.data := by
  simp [containsStr]

theorem strOfPath_cons (a : String) {l : FPath} (h : l ≠ []) :
    strOfPath (a :: l) = a ++ "/" ++ strOfPath l := by
  cases l with
  | nil => cases h rfl
  | cons b t => rfl

theorem containsStr_src (p q : FPath) : containsStr (strOfPath (p ++ "src" :: q)) "src" = true := by
  rw [containsStr_iff]
  induction p with
  | nil =>
    cases q with
    | nil => simp [strOfPath]
    | cons b t =>
      rw [List.nil_append, strOfPath_cons "src" (by simp)]
      simp only [String.data_append]
      exact ((List.prefix_append _ _).isInfix)
  | cons a p ih =>
    rw [List.cons_append, strOfPath_cons a (by simp)]
    simp only [String.data_append]
    exact ih.trans (List.IsSuffix.isInfix ⟨a.data ++ "/".data, by simp⟩)

theorem marker6_ne_target (pd P : FPath) (name : String) :
    ∀ d ∈ [pd ++ ["configs"], pd ++ ["scripts"], pd ++ "src" :: (P ++ ["entities"]),
      pd ++ "src" :: (P ++ ["services"]), pd ++ "src" :: (P ++ ["workflows"]),
      pd ++ "src" :: (P ++ ["infrastructure"])],
      ∀ e ∈ targetWrites name pd (pd ++ "src" :: P), (d ++ ["__init__.py"]) ≠ e.1 := by
  intro d hd e he
  rw [targetWrites_eq] at he
  simp only [List.mem_cons, List.not_mem_nil, or_false] at hd he
  rcases hd with rfl | rfl | rfl | rfl | rfl | rfl <;>
    rcases he with rfl | rfl | rfl | rfl | rfl | rfl | rfl | rfl | rfl <;>
      simp

/-! ## The claims -/

/-- C4: the package identifier is a pure function of the name that maps
every hyphen to an underscore and passes every other character through
unchanged; in particular for name = "my-project" the source package
directory is `src/my_project/` under the project directory. -/
theorem C4_package_identifier :
    (∀ name : String,
        packageNameOf name = String.mk (name.data.map (fun c => if c = '-' then '_' else c))) ∧
      ∀ out : FPath,
        src_dir_of out "my-project" = project_dir_of out "my-project" ++ ["src", "my_project"] := by
  constructor
  · intro name
    rw [packageNameOf, replaceList, replaceAux_dash]
  · intro out
    rw [src_dir_shape]
    congr 1

/-- C7: for every pair of distinct valid names (non-empty, consisting of
hyphens and alphanumerics), the rendered manifest contents differ: the
name appears verbatim in the manifest, so rendering is injective. -/
theorem C7_manifest_injective (n1 n2 : String)
    (hv1 : n1 ≠ "" ∧ ∀ c ∈ n1.data, c.isAlphanum = true ∨ c = '-')
    (hv2 : n2 ≠ "" ∧ ∀ c ∈ n2.data, c.isAlphanum = true ∨ c = '-')
    (hne : n1 ≠ n2) : pyprojectRendered n1 ≠ pyprojectRendered n2 :=
  fun h => hne (pyprojectRendered_inj h)

theorem C7_manifest_injective_witness :
    pyprojectRendered "alpha" ≠ pyprojectRendered "beta" :=
  C7_manifest_injective "alpha" "beta" ⟨by decide, by decide⟩ ⟨by decide, by decide⟩ (by decide)

/-- C8: for name = "widget" and output root /tmp/x (components
`["tmp", "x"]`), after the invocation the manifest file exists with the
literal substring `name = "widget"`, and the top-level package marker
contains the literal string "widget package". -/
theorem C8_widget_run :
    ((create_project "widget" ["tmp", "x"] FS.empty).toOption.bind
        (fun f => f.getFile ["tmp", "x", "widget", "pyproject.toml"]) =
      some (pyprojectRendered "widget")) ∧
    containsStr (pyprojectRendered "widget") "name = \"widget\"" = true ∧
    ((create_project "widget" ["tmp", "x"] FS.empty).toOption.bind
        (fun f => f.getFile ["tmp", "x", "widget", "src", "widget", "__init__.py"]) =
      some (initRendered "widget package")) ∧
    containsStr (initRendered "widget package") "widget package" = true :=
  ⟨by decide, by decide, by decide, by decide⟩

/-- C10: for the empty name the computed project directory equals the
output root itself, and `create_project` writes the entire skeleton
directly into the output root. -/
theorem C10_empty_name :
    (∀ out : FPath, project_dir_of out "" = out) ∧
    ((create_project "" ["root"] FS.empty).toOption.bind
        (fun f => f.getFile ["root", "pyproject.toml"]) = some (pyprojectRendered "")) ∧
    ((create_project "" ["root"] FS.empty).toOption.bind
        (fun f => f.getFile ["root", "Makefile"]) = some MAKEFILE_TEMPLATE) ∧
    ((create_project "" ["root"] FS.empty).toOption.bind
        (fun f => f.getFile ["root", "src", "__init__.py"]) = some (initRendered " package")) := by
  refine ⟨?_, by decide, by decide, by decide⟩
  intro out
  rw [project_dir_of, joinPath]
  have h : strComponents "" = [] := rfl
  rw [h, List.append_nil]

/-- C1 counterexample: for name = "src" (with output root `out`) the
configs and scripts directories DO receive package-marker files, because
the code tests the substring "src" against the whole path string; this
refutes the claim that markers go only to directories under the source
tree and that configs/ and scripts/ always stay empty. -/
theorem C1_counterexample :
    ((create_project "src" ["out"] FS.empty).toOption.bind
        (fun f => f.getFile ["out", "src", "configs", "__init__.py"]) = some PACKAGE_MARKER) ∧
    ((create_project "src" ["out"] FS.empty).toOption.bind
        (fun f => f.getFile ["out", "src", "scripts", "__init__.py"]) = some PACKAGE_MARKER) :=
  ⟨by decide, by decide⟩

/-- C2 counterexample: invoked over the empty filesystem, where the
output root `missing` does not exist, `create_project` succeeds and
creates the whole project tree (directory creation uses parents=True),
instead of failing. -/
theorem C2_counterexample :
    FS.empty.dirExists ["missing"] = false ∧
    ((create_project "widget" ["missing"] FS.empty).toOption.bind
        (fun f => f.getFile ["missing", "widget", "pyproject.toml"]) =
      some (pyprojectRendered "widget")) ∧
    (create_project "widget" ["missing"] FS.empty).toOption ≠ none :=
  ⟨by decide, by decide, by decide⟩

/-- C6: for every name, output root and starting filesystem on which the
invocation succeeds, the manifest, build-helper, tooling-ignore,
top-level package marker (with the "name package" description),
base-interface source, configuration-object source and the three empty
test-directory markers are written unconditionally, overwriting any file
already present at each of those paths regardless of its prior
content. -/
theorem C6_unconditional_writes (name : String) (out : FPath) (fs fs' : FS)
    (h : create_project name out fs = .ok fs') :
    ∀ e ∈ targetWrites name (project_dir_of out name) (src_dir_of out name),
      fs'.getFile e.1 = some e.2 :=
  create_project_ok_targets h

theorem C6_unconditional_writes_witness :
    cpPre.getFile ["o", "widget", "pyproject.toml"] = some (pyprojectRendered "widget") :=
  C6_unconditional_writes "widget" ["o"] fsPre cpPre (by rfl)
    (["o", "widget", "pyproject.toml"], pyprojectRendered "widget") (by decide)

/-- C9: for every name, output root and starting filesystem on which the
invocation succeeds, the build-helper (Makefile) and tooling-ignore
(.gitignore) files are written with the fixed constant contents
`MAKEFILE_TEMPLATE` and `GITIGNORE_TEMPLATE`, which do not depend on the
name, the package identifier, or the output root (no substitution is
performed on these two templates). -/
theorem C9_constant_files (name : String) (out : FPath) (fs fs' : FS)
    (h : create_project name out fs = .ok fs') :
    fs'.getFile (project_dir_of out name ++ ["Makefile"]) = some MAKEFILE_TEMPLATE ∧
      fs'.getFile (project_dir_of out name ++ [".gitignore"]) = some GITIGNORE_TEMPLATE := by
  have ht := create_project_ok_targets h
  have hsd := src_dir_shape out name
  constructor
  · refine ht (project_dir_of out name ++ ["Makefile"], MAKEFILE_TEMPLATE) ?_
    rw [hsd, targetWrites_eq]
    simp
  · refine ht (project_dir_of out name ++ [".gitignore"], GITIGNORE_TEMPLATE) ?_
    rw [hsd, targetWrites_eq]
    simp

theorem C9_constant_files_witness :
    cpW.getFile (project_dir_of ["o"] "widget" ++ ["Makefile"]) = some MAKEFILE_TEMPLATE ∧
      cpW.getFile (project_dir_of ["o"] "widget" ++ [".gitignore"]) = some GITIGNORE_TEMPLATE :=
  C9_constant_files "widget" ["o"] FS.empty cpW (by rfl)

/-- C5: for every pre-existing file at a sub-package marker path under
the source tree (entities, services, workflows, infrastructure),
`create_project` leaves that file's content unchanged, whatever it was
(write-once-if-absent). -/
theorem C5_markers_preserved (name : String) (out : FPath) (fs fs' : FS) (c : String)
    (k : String) (hk : k ∈ (["entities", "services", "workflows", "infrastructure"] : List String))
    (h : create_project name out fs = .ok fs')
    (hpre : fs.getFile (src_dir_of out name ++ [k, "__init__.py"]) = some c) :
    fs'.getFile (src_dir_of out name ++ [k, "__init__.py"]) = some c := by
  obtain ⟨fsL, hloop, hwr⟩ := create_project_ok_parts h
  have hsd := src_dir_shape out name
  have hL : fsL.getFile (src_dir_of out name ++ [k, "__init__.py"]) = some c :=
    loopDirs_ok_getFile_some hloop hpre
  rw [hsd] at hwr
  have hne : ∀ e ∈ targetWrites name (project_dir_of out name)
      (project_dir_of out name ++ "src" :: strComponents (packageNameOf name)),
      (src_dir_of out name ++ [k, "__init__.py"]) ≠ e.1 := by
    intro e he
    have hshape : src_dir_of out name ++ [k, "__init__.py"] =
        (project_dir_of out name ++
          "src" :: (strComponents (packageNameOf name) ++ [k])) ++ ["__init__.py"] := by
      rw [hsd]
      simp
    rw [hshape]
    refine marker6_ne_target (project_dir_of out name) (strComponents (packageNameOf name)) name
      (project_dir_of out name ++ "src" :: (strComponents (packageNameOf name) ++ [k])) ?_ e he
    simp only [List.mem_cons, List.not_mem_nil, or_false] at hk
    rcases hk with rfl | rfl | rfl | rfl <;> simp
  rw [writeAll_ok_getFile_ne hwr hne]
  exact hL

theorem C5_markers_preserved_witness :
    cpC5.getFile (src_dir_of ["o"] "widget" ++ ["entities", "__init__.py"]) = some "CUSTOM" :=
  C5_markers_preserved "widget" ["o"] fsC5 cpC5 "CUSTOM" "entities" (by decide) (by rfl)
    (by decide)

/-- C1 (amended): for the configs, scripts and the four source
sub-package directories, `create_project` writes the package-marker file
(content `"""Package."""`) iff the string "src" occurs in the
directory's path string and nothing already exists at the marker path;
this coincides with "lies under the source tree" only when "src" occurs
in no other component, and e.g. for name = "src" the configs and scripts
directories also receive markers. -/
theorem C1_marker_characterization (name : String) (out : FPath) (fs fs' : FS)
    (h : create_project name out fs = .ok fs') (d : FPath)
    (hd : d ∈ [project_dir_of out name ++ ["configs"], project_dir_of out name ++ ["scripts"],
      src_dir_of out name ++ ["entities"], src_dir_of out name ++ ["services"],
      src_dir_of out name ++ ["workflows"], src_dir_of out name ++ ["infrastructure"]]) :
    fs'.getFile (d ++ ["__init__.py"]) =
      if (containsStr (strOfPath d) "src" && !(fs.pathExists (d ++ ["__init__.py"]))) = true
      then some PACKAGE_MARKER
      else fs.getFile (d ++ ["__init__.py"]) := by
  obtain ⟨fsL, hloop, hwr⟩ := create_project_ok_parts h
  have hsd := src_dir_shape out name
  rw [hsd] at hloop hwr hd
  simp only [List.append_assoc, List.cons_append] at hd
  have hdir : d ∈ directoriesOf (project_dir_of out name)
      (project_dir_of out name ++ "src" :: strComponents (packageNameOf name)) := by
    rw [directoriesOf_eq]
    simp only [List.mem_cons, List.not_mem_nil, or_false] at hd
    rcases hd with rfl | rfl | rfl | rfl | rfl | rfl <;> simp
  have hm := loopDirs_ok_marker hloop hdir
    (directories_pairwise (project_dir_of out name) (strComponents (packageNameOf name)))
    (fun d' hd' =>
      marker_not_pref (project_dir_of out name) (strComponents (packageNameOf name)) d hdir d' hd')
  have hne : ∀ e ∈ targetWrites name (project_dir_of out name)
      (project_dir_of out name ++ "src" :: strComponents (packageNameOf name)),
      d ++ ["__init__.py"] ≠ e.1 :=
    fun e he =>
      marker6_ne_target (project_dir_of out name) (strComponents (packageNameOf name)) name d hd
        e he
  rw [writeAll_ok_getFile_ne hwr hne, hm]

theorem C1_marker_characterization_witness :
    cpW.getFile ((src_dir_of ["o"] "widget" ++ ["entities"]) ++ ["__init__.py"]) =
      some PACKAGE_MARKER := by
  have h := C1_marker_characterization "widget" ["o"] FS.empty cpW (by rfl)
    (src_dir_of ["o"] "widget" ++ ["entities"]) (by decide)
  rw [h]
  decide

/-- C2 (amended): running against an output root that does not exist does
NOT fail: starting from the empty filesystem (where no output root
exists), for every name and output root the invocation succeeds —
`mkdir(parents=True, exist_ok=True)` creates the missing root — writing
the manifest and creating the project directory and the output root. -/
theorem C2_missing_root_succeeds (name : String) (out : FPath) :
    ∃ fs', create_project name out FS.empty = .ok fs' ∧
      fs'.getFile (project_dir_of out name ++ ["pyproject.toml"]) =
        some (pyprojectRendered name) ∧
      fs'.dirExists (project_dir_of out name) = true ∧
      fs'.dirExists out = true := by
  have h1 : ∀ d ∈ directoriesOf (project_dir_of out name) (src_dir_of out name),
      ∀ q ∈ nePrefixes d, FS.empty.fileExists q = false := by
    intro d _ q _
    rfl
  have h2 : ∀ e ∈ targetWrites name (project_dir_of out name) (src_dir_of out name),
      FS.empty.dirExists e.1 = false := by
    intro e he
    rw [src_dir_shape out name, targetWrites_eq] at he
    simp only [List.mem_cons, List.not_mem_nil, or_false] at he
    rcases he with rfl | rfl | rfl | rfl | rfl | rfl | rfl | rfl | rfl <;>
      simp [FS.dirExists, FS.empty]
  obtain ⟨fs', hok, hc⟩ := create_project_ok_of h1 h2
  obtain ⟨fsL, hloop, hwr⟩ := create_project_ok_parts hok
  have hdirmem : project_dir_of out name ++ ["configs"] ∈
      directoriesOf (project_dir_of out name) (src_dir_of out name) := by
    rw [src_dir_shape out name, directoriesOf_eq]
    simp
  refine ⟨fs', hok, ?_, ?_, ?_⟩
  · refine hc (project_dir_of out name ++ ["pyproject.toml"], pyprojectRendered name) ?_
    rw [src_dir_shape out name, targetWrites_eq]
    simp
  · rw [writeAll_ok_dirExists hwr]
    by_cases hnil : project_dir_of out name = []
    · rw [hnil]
      simp [FS.dirExists]
    · exact loopDirs_ok_dirExists_mem hloop hdirmem
        (mem_nePrefixes.2 ⟨hnil, ⟨["configs"], rfl⟩⟩)
  · rw [writeAll_ok_dirExists hwr]
    by_cases hnil : out = []
    · rw [hnil]
      simp [FS.dirExists]
    · refine loopDirs_ok_dirExists_mem hloop hdirmem (mem_nePrefixes.2 ⟨hnil, ?_⟩)
      exact ⟨strComponents name ++ ["configs"], by simp [project_dir_of, joinPath]⟩

/-- C3: for every non-empty name of hyphens and alphanumerics and an
existing output root, a second invocation of `create_project` with the
same arguments raises no error, and both invocations leave the
manifest, build-helper, ignore-list, base.py and config.py files (and
the other unconditionally written files) with identical, deterministic
content. -/
theorem C3_idempotent (name : String) (out : FPath) (fs fs1 : FS)
    (hne : name ≠ "") (hchars : ∀ c ∈ name.data, c.isAlphanum = true ∨ c = '-')
    (hroot : fs.dirExists out = true)
    (h1 : create_project name out fs = .ok fs1) :
    ∃ fs2, create_project name out fs1 = .ok fs2 ∧
      ∀ e ∈ targetWrites name (project_dir_of out name) (src_dir_of out name),
        fs1.getFile e.1 = some e.2 ∧ fs2.getFile e.1 = some e.2 := by
  obtain ⟨fsL, hloop, hwr⟩ := create_project_ok_parts h1
  have hsd := src_dir_shape out name
  rw [hsd] at hloop hwr
  have hA : ∀ d ∈ directoriesOf (project_dir_of out name) (src_dir_of out name),
      ∀ q ∈ nePrefixes d, fs1.fileExists q = false := by
    intro d hd q hq
    rw [hsd] at hd
    have hq_ne_t : ∀ e ∈ targetWrites name (project_dir_of out name)
        (project_dir_of out name ++ "src" :: strComponents (packageNameOf name)), q ≠ e.1 := by
      intro e he heq
      exact targets_not_pref (project_dir_of out name) (strComponents (packageNameOf name)) name
        e he d hd (heq ▸ hq)
    have hq_ne_m : ∀ d' ∈ directoriesOf (project_dir_of out name)
        (project_dir_of out name ++ "src" :: strComponents (packageNameOf name)),
        q ≠ d' ++ ["__init__.py"] := by
      intro d' hd' heq
      exact marker_not_pref (project_dir_of out name) (strComponents (packageNameOf name))
        d' hd' d hd (heq ▸ hq)
    have e1 : fs1.getFile q = fsL.getFile q := writeAll_ok_getFile_ne hwr hq_ne_t
    have e2 : fsL.getFile q = fs.getFile q := loopDirs_ok_getFile_ne hloop hq_ne_m
    have e3 : fs.fileExists q = false := loopDirs_ok_conds hloop d hd q hq
    unfold FS.fileExists
    rw [e1, e2]
    exact e3
  have hB : ∀ e ∈ targetWrites name (project_dir_of out name) (src_dir_of out name),
      fs1.dirExists e.1 = false := by
    intro e he
    rw [hsd] at he
    rw [writeAll_ok_dirExists hwr]
    exact (writeAll_ok_conds hwr e he).1
  obtain ⟨fs2, hok2, hc2⟩ := create_project_ok_of hA hB
  exact ⟨fs2, hok2, fun e he => ⟨create_project_ok_targets h1 e he, hc2 e he⟩⟩

theorem C3_idempotent_witness :
    ∃ fs2, create_project "widget" ["o"] cpR1 = .ok fs2 ∧
      ∀ e ∈ targetWrites "widget" (project_dir_of ["o"] "widget") (src_dir_of ["o"] "widget"),
        cpR1.getFile e.1 = some e.2 ∧ fs2.getFile e.1 = some e.2 :=
  C3_idempotent "widget" ["o"] fsRoot cpR1 (by decide) (by decide) (by decide) (by rfl)
